import Mathlib

/-!
Shallow embedding of the "Austria First Radio Monitor" repository
(live monitor `src/index.ts`, transcription helpers `transcribe.ts`,
archive scraper) and proofs of the specification claims about it.

Modelling conventions:
* JavaScript strings are modelled as `List Char` (`Str`), so that every
  string operation of the source is a computable list function.
* `Date` values and `Date.now()` instants are modelled as `Int`
  milliseconds since the epoch (the value of `Date.getTime()`).
* The fractional second values returned by the transcription service
  (`seg.start`, `seg.end`, `result.duration`) are modelled as `ℚ`;
  JavaScript `Math.round` on non-negative values is `⌊q + 1/2⌋`.
* External effects (the Groq API, `Date.toISOString`, the filesystem)
  are modelled as oracle parameters and explicit effect logs.
-/

/-- JavaScript strings, modelled as lists of characters. -/
abbrev Str := List Char

/-- `CHUNK_DURATION_SECS` from `src/index.ts`. -/
def CHUNK_DURATION_SECS : Int := 120

/-- 15-minute metadata retention window (`15 * 60 * 1000` in `startMetadataPoller`). -/
def RETENTION_MS : Int := 15 * 60 * 1000

/-- 5-minute idle-flush threshold (`5 * 60 * 1000` in the periodic-flush interval). -/
def IDLE_THRESHOLD_MS : Int := 5 * 60 * 1000

/-- 5-minute watchdog stall threshold (`5 * 60 * 1000` in the watchdog interval). -/
def STALL_THRESHOLD_MS : Int := 5 * 60 * 1000

/-- `MetadataSample` from `src/index.ts`.  `artist = none` models JS `null`
(`fetchMetadata` normalises falsy artists to `null` via `data.artist || null`). -/
structure MetadataSample where
  timestamp : Int
  wallClock : Str
  artist : Option Str
  title : Option Str
deriving DecidableEq

/-- `ChunkInfo` from `src/index.ts`; `startTime` is the chunk start as ms since epoch. -/
structure ChunkInfo where
  file : Str
  startTime : Int
  duration : Int
  hasSpeech : Bool
deriving DecidableEq

/-- `TranscriptSegment` from `transcribe.ts` (`start`/`end` in milliseconds;
the `end` field is called `stop` because `end` is a Lean keyword). -/
structure TranscriptSegment where
  start : Int
  stop : Int
  text : Str
deriving DecidableEq

/-- `LiveBroadcast` from `src/index.ts`. -/
structure LiveBroadcast where
  id : Str
  title : Str
  timestamp : Str
  duration : Int
  audioFile : Str
  transcript : List TranscriptSegment
deriving DecidableEq

/-- `chunkHasSpeech(startTime, endTime)` from `src/index.ts`: filter the
metadata buffer to samples inside the chunk's time range and report whether
any sample has no artist (`samples.some(s => !s.artist)`). -/
def chunkHasSpeech (metadataBuffer : List MetadataSample) (startMs endMs : Int) : Bool :=
  let samples := metadataBuffer.filter fun s => startMs ≤ s.timestamp && s.timestamp ≤ endMs
  samples.any fun s => s.artist.isNone

/-- `getChunkSpeechRatio(startTime, endTime)` from `src/index.ts`:
`0` when no sample lies in the range, otherwise the fraction of in-range
samples with no artist. -/
def getChunkSpeechRatio (metadataBuffer : List MetadataSample) (startMs endMs : Int) : ℚ :=
  let samples := metadataBuffer.filter fun s => startMs ≤ s.timestamp && s.timestamp ≤ endMs
  if samples.length = 0 then 0
  else
    let speechSamples := samples.filter fun s => s.artist.isNone
    (speechSamples.length : ℚ) / (samples.length : ℚ)

/-- One tick of `startMetadataPoller` from `src/index.ts`: push the freshly
fetched sample (timestamped `now`) onto the buffer, then drop samples from
the front while the head is older than the 15-minute cutoff
(`while (metadataBuffer.length > 0 && metadataBuffer[0].timestamp < cutoff) shift()`). -/
def pollerInsert (metadataBuffer : List MetadataSample) (now : Int) (wallClock : Str)
    (artist title : Option Str) : List MetadataSample :=
  let buf := metadataBuffer ++
    [{ timestamp := now, wallClock := wallClock, artist := artist, title := title }]
  let cutoff := now - RETENTION_MS
  buf.dropWhile fun s => decide (s.timestamp < cutoff)

/-- The watchdog check from the monitor listing in `README.md`
(`staleTime = Date.now() - lastChunkTime; if (staleTime > 5*60*1000 && ffmpegProcess) kill`):
returns whether this tick kills the capture subprocess. -/
def watchdogKills (now lastChunkTime : Int) (ffmpegRunning : Bool) : Bool :=
  decide (now - lastChunkTime > STALL_THRESHOLD_MS) && ffmpegRunning

/-- `fullText.split(/\s+/).filter(w => w.length > 0)` from `generateTitle` in
`transcribe.ts`: split on whitespace and keep the non-empty words. -/
def jsSplitWhitespace (text : Str) : List Str :=
  (text.splitOnP fun c => c.isWhitespace).filter fun w => 0 < w.length

/-- `generateTitle(segments, maxWords)` from `transcribe.ts`: join the segment
texts with spaces, split into words, keep the first `maxWords` words joined by
single spaces, and append `"..."` when more words existed. -/
def generateTitle (segments : List TranscriptSegment) (maxWords : Nat := 10) : Str :=
  let fullText := List.intercalate [' '] (segments.map (·.text))
  let words := jsSplitWhitespace fullText
  let title := List.intercalate [' '] (words.take maxWords)
  title ++ (if maxWords < words.length then ['.', '.', '.'] else [])

/-- C4: for every metadata buffer and chunk time range, the speech ratio lies
in `[0,1]`, is `0` when no sample falls in the range, and `chunkHasSpeech`
holds exactly when the speech ratio is positive. -/
theorem speechRatio_bounds_isSpeech_iff (metadataBuffer : List MetadataSample)
    (startMs endMs : Int) :
    0 ≤ getChunkSpeechRatio metadataBuffer startMs endMs ∧
    getChunkSpeechRatio metadataBuffer startMs endMs ≤ 1 ∧
    ((metadataBuffer.filter fun s => startMs ≤ s.timestamp && s.timestamp ≤ endMs) = [] →
      getChunkSpeechRatio metadataBuffer startMs endMs = 0) ∧
    (chunkHasSpeech metadataBuffer startMs endMs = true ↔
      0 < getChunkSpeechRatio metadataBuffer startMs endMs) := by
  unfold chunkHasSpeech getChunkSpeechRatio
  set samples := metadataBuffer.filter fun s => startMs ≤ s.timestamp && s.timestamp ≤ endMs
    with hsamples
  by_cases h : samples.length = 0
  · refine ⟨by simp [h], by simp [h], fun _ => by simp [h], ?_⟩
    rw [List.length_eq_zero] at h
    simp [h]
  · have hpos : (0 : ℚ) < (samples.length : ℚ) := by
      exact_mod_cast Nat.pos_of_ne_zero h
    have hle : (samples.filter fun s => s.artist.isNone).length ≤ samples.length :=
      List.length_filter_le _ _
    refine ⟨?_, ?_, fun hnil => ?_, ?_⟩
    · simp only [h, if_false]
      positivity
    · simp only [h, if_false]
      rw [div_le_one hpos]
      exact_mod_cast hle
    · exact absurd (by rw [hnil] at hsamples; simp [hsamples]) h
    · simp only [h, if_false]
      rw [div_pos_iff_of_pos_right hpos]
      have : (0 : ℚ) < ((samples.filter fun s => s.artist.isNone).length : ℚ) ↔
          0 < (samples.filter fun s => s.artist.isNone).length := by exact_mod_cast Iff.rfl
      rw [this, List.length_pos]
      constructor
      · intro hany
        rcases List.any_eq_true.mp hany with ⟨s, hs, hnone⟩
        intro hcontra
        have := List.filter_eq_nil_iff.mp hcontra s hs
        simp [hnone] at this
      · intro hne
        rcases List.exists_cons_of_ne_nil hne with ⟨a, as, heq⟩
        have ha : a ∈ samples.filter fun s => s.artist.isNone := by
          rw [heq]; exact List.mem_cons_self a as
        have := List.mem_filter.mp ha
        exact List.any_eq_true.mpr ⟨a, this.1, this.2⟩

/-- C5: inserting a sample via the metadata poller tick into a buffer with
non-decreasing timestamps leaves no sample older than the 15-minute retention
window relative to the insert time. -/
theorem pollerInsert_retention (metadataBuffer : List MetadataSample) (now : Int)
    (wallClock : Str) (artist title : Option Str)
    (hsorted : metadataBuffer.Pairwise fun a b => a.timestamp ≤ b.timestamp) :
    ∀ s ∈ pollerInsert metadataBuffer now wallClock artist title,
      now - RETENTION_MS ≤ s.timestamp := by
  unfold pollerInsert
  induction metadataBuffer with
  | nil =>
    intro s hs
    simp only [List.nil_append, List.dropWhile] at hs
    by_cases hc : (⟨now, wallClock, artist, title⟩ : MetadataSample).timestamp < now - RETENTION_MS
    · simp [hc] at hs
    · simp only [decide_eq_true_eq, hc, decide_False] at hs
      rw [List.mem_singleton] at hs
      subst hs
      simpa using not_lt.mp hc
  | cons a rest ih =>
    intro s hs
    rw [List.pairwise_cons] at hsorted
    simp only [List.cons_append, List.dropWhile_cons] at hs
    by_cases hc : a.timestamp < now - RETENTION_MS
    · rw [if_pos (by simpa using hc)] at hs
      exact ih hsorted.2 s hs
    · rw [if_neg (by simpa using hc)] at hs
      push_neg at hc
      rcases List.mem_cons.mp hs with rfl | hs'
      · exact hc
      · rcases List.mem_append.mp hs' with hmem | hmem
        · exact le_trans hc (hsorted.1 s hmem)
        · rw [List.mem_singleton] at hmem
          subst hmem
          have hret : (0 : Int) ≤ RETENTION_MS := by norm_num [RETENTION_MS]
          simp only
          omega

/-- C5 witness: a concrete sorted buffer with one stale sample; a sample
surviving the insert is within the retention window. -/
theorem pollerInsert_retention_witness :
    1000000 - RETENTION_MS ≤ (⟨1000000, [], some ['x'], none⟩ : MetadataSample).timestamp :=
  pollerInsert_retention [⟨0, [], none, none⟩, ⟨1000000, [], some ['x'], none⟩]
    1000000 [] none none (by decide) ⟨1000000, [], some ['x'], none⟩ (by decide)

/-- C7: the watchdog kills the capture subprocess exactly when the time since
the last observed chunk strictly exceeds the 5-minute stall threshold and a
subprocess instance is still running; in particular it never kills when a
chunk was observed within the threshold or no subprocess is running. -/
theorem watchdogKills_iff (now lastChunkTime : Int) (ffmpegRunning : Bool) :
    watchdogKills now lastChunkTime ffmpegRunning = true ↔
      (STALL_THRESHOLD_MS < now - lastChunkTime ∧ ffmpegRunning = true) := by
  simp [watchdogKills, Bool.and_eq_true, decide_eq_true_eq]

/-- C8: when the concatenated transcript text has more than `maxWords` words,
`generateTitle` is exactly the first `maxWords` words joined by single spaces
with the `"..."` marker appended; with at most `maxWords` words it is all the
words joined by single spaces, with no marker. -/
theorem generateTitle_spec (segments : List TranscriptSegment) (maxWords : Nat) :
    (maxWords < (jsSplitWhitespace (List.intercalate [' '] (segments.map (·.text)))).length →
      generateTitle segments maxWords =
        List.intercalate [' ']
          ((jsSplitWhitespace (List.intercalate [' '] (segments.map (·.text)))).take maxWords)
          ++ ['.', '.', '.']) ∧
    ((jsSplitWhitespace (List.intercalate [' '] (segments.map (·.text)))).length ≤ maxWords →
      generateTitle segments maxWords =
        List.intercalate [' ']
          (jsSplitWhitespace (List.intercalate [' '] (segments.map (·.text))))) := by
  constructor
  · intro hlt
    unfold generateTitle
    simp only [hlt, if_pos]
  · intro hle
    unfold generateTitle
    have h1 : ¬ maxWords <
        (jsSplitWhitespace (List.intercalate [' '] (segments.map (·.text)))).length :=
      not_lt.mpr hle
    simp [h1, List.take_of_length_le hle]

/-- C8 witness: a 15-word transcript with `maxWords = 10` keeps the first ten
words and gains the marker; a 5-word transcript is kept whole with no marker. -/
theorem generateTitle_spec_witness :
    (generateTitle [⟨0, 0, "a b c d e f g h i j".toList⟩, ⟨0, 0, "k l m n o".toList⟩] 10 =
      List.intercalate [' ']
        ((jsSplitWhitespace (List.intercalate [' ']
          ([⟨0, 0, "a b c d e f g h i j".toList⟩,
            (⟨0, 0, "k l m n o".toList⟩ : TranscriptSegment)].map (·.text)))).take 10)
        ++ ['.', '.', '.']) ∧
    (generateTitle [⟨0, 0, "k l m n o".toList⟩] 10 =
      List.intercalate [' ']
        (jsSplitWhitespace (List.intercalate [' ']
          ([(⟨0, 0, "k l m n o".toList⟩ : TranscriptSegment)].map (·.text))))) :=
  ⟨(generateTitle_spec _ 10).1 (by decide), (generateTitle_spec _ 10).2 (by decide)⟩

/-- JavaScript `Math.round` on the (non-negative) second values of the
transcription service: round half up. -/
def jsRound (q : ℚ) : Int := ⌊q + 1 / 2⌋

/-- JavaScript `String.prototype.trim`: strip whitespace from both ends. -/
def jsTrim (s : Str) : Str :=
  ((s.dropWhile Char.isWhitespace).reverse.dropWhile Char.isWhitespace).reverse

/-- A segment of a `GroqTranscriptionResult` from `transcribe.ts`
(`start`/`end` in seconds; `end` is called `stop` because `end` is a Lean
keyword; the unused per-segment metadata fields are omitted). -/
structure GroqSegment where
  start : ℚ
  stop : ℚ
  text : Str
deriving DecidableEq

/-- `GroqTranscriptionResult` from `transcribe.ts` (the fields the code
reads: `duration` in seconds and `segments`). -/
structure GroqTranscriptionResult where
  duration : ℚ
  text : Str
  segments : List GroqSegment
deriving DecidableEq

/-- `MAX_FILE_SIZE` from `transcribe.ts` (20MB). -/
def MAX_FILE_SIZE : Nat := 20 * 1024 * 1024

/-- The split-file loop of `transcribeAudio` in `transcribe.ts`: transcribe
each sub-segment in order, shift its segments by the running
`timeOffsetMs`, and advance the offset by the rounded *actual* duration
reported for that sub-segment (`timeOffsetMs += Math.round(result.duration * 1000)`). -/
def transcribeSplitLoop : List GroqTranscriptionResult → Int → List TranscriptSegment
  | [], _ => []
  | r :: rs, timeOffsetMs =>
    (r.segments.map fun seg =>
      { start := jsRound (seg.start * 1000) + timeOffsetMs
        stop := jsRound (seg.stop * 1000) + timeOffsetMs
        text := jsTrim seg.text })
    ++ transcribeSplitLoop rs (timeOffsetMs + jsRound (r.duration * 1000))

/-- `transcribeAudio` from `transcribe.ts`.  The external world is passed as
oracles: `fileSize` is the stat of the input file, `whole` the service result
for the whole file (used when `fileSize <= MAX_FILE_SIZE`), and `parts` the
service results for the ffmpeg-split sub-segments in split order (used
otherwise). -/
def transcribeAudio (fileSize : Nat) (whole : GroqTranscriptionResult)
    (parts : List GroqTranscriptionResult) : List TranscriptSegment :=
  if fileSize ≤ MAX_FILE_SIZE then
    whole.segments.map fun seg =>
      { start := jsRound (seg.start * 1000)
        stop := jsRound (seg.stop * 1000)
        text := jsTrim seg.text }
  else transcribeSplitLoop parts 0

/-- The cumulative actual reported duration (in rounded milliseconds) of
sub-segments `0..i-1`. -/
def priorDurationsMs (parts : List GroqTranscriptionResult) (i : Nat) : Int :=
  ((parts.take i).map fun r => jsRound (r.duration * 1000)).sum

theorem mapIdx_congr_fn {α β : Type} (f g : Nat → α → β) (l : List α)
    (h : ∀ i a, f i a = g i a) : l.mapIdx f = l.mapIdx g := by
  induction l generalizing f g with
  | nil => rfl
  | cons a as ih =>
    rw [List.mapIdx_cons, List.mapIdx_cons, h 0 a]
    exact congrArg _ (ih _ _ fun i b => h (i + 1) b)

theorem priorDurationsMs_cons (r : GroqTranscriptionResult)
    (rs : List GroqTranscriptionResult) (i : Nat) :
    priorDurationsMs (r :: rs) (i + 1) =
      jsRound (r.duration * 1000) + priorDurationsMs rs i := by
  simp [priorDurationsMs, List.take_succ_cons]

theorem transcribeSplitLoop_eq_mapIdx (parts : List GroqTranscriptionResult)
    (timeOffsetMs : Int) :
    transcribeSplitLoop parts timeOffsetMs =
      (parts.mapIdx fun i r => r.segments.map fun seg =>
        ({ start := jsRound (seg.start * 1000) + (timeOffsetMs + priorDurationsMs parts i)
           stop := jsRound (seg.stop * 1000) + (timeOffsetMs + priorDurationsMs parts i)
           text := jsTrim seg.text } : TranscriptSegment)).flatten := by
  induction parts generalizing timeOffsetMs with
  | nil => simp [transcribeSplitLoop]
  | cons r rs ih =>
    rw [transcribeSplitLoop, List.mapIdx_cons, List.flatten_cons]
    congr 1
    · simp [priorDurationsMs]
    · rw [ih]
      congr 1
      apply mapIdx_congr_fn
      intro i x
      simp only [priorDurationsMs_cons, add_assoc]

/-- C6: over the 20MB threshold, `transcribeAudio` returns the concatenation
of the sub-segment transcripts in split order, each segment of sub-segment
`i` offset by the cumulative rounded actual durations of sub-segments
`0..i-1`; at or below the threshold it returns the whole-file segments with
no offset, converted from seconds to rounded milliseconds. -/
theorem transcribeAudio_offsets (fileSize : Nat) (whole : GroqTranscriptionResult)
    (parts : List GroqTranscriptionResult) :
    (MAX_FILE_SIZE < fileSize →
      transcribeAudio fileSize whole parts =
        (parts.mapIdx fun i r => r.segments.map fun seg =>
          ({ start := jsRound (seg.start * 1000) + priorDurationsMs parts i
             stop := jsRound (seg.stop * 1000) + priorDurationsMs parts i
             text := jsTrim seg.text } : TranscriptSegment)).flatten) ∧
    (fileSize ≤ MAX_FILE_SIZE →
      transcribeAudio fileSize whole parts =
        whole.segments.map fun seg =>
          { start := jsRound (seg.start * 1000)
            stop := jsRound (seg.stop * 1000)
            text := jsTrim seg.text }) := by
  constructor
  · intro h
    unfold transcribeAudio
    rw [if_neg (by omega), transcribeSplitLoop_eq_mapIdx]
    congr 1
    apply mapIdx_congr_fn
    intro i x
    simp [zero_add]
  · intro h
    unfold transcribeAudio
    rw [if_pos h]

/-- C6 witness: a 20MB+1 file split into two sub-segments, the first with
actual duration 2s, places the second sub-segment's transcript at +2000ms. -/
theorem transcribeAudio_offsets_witness :
    MAX_FILE_SIZE < 20971521 ∧
    transcribeAudio 20971521 ⟨0, [], []⟩
        [⟨2, [], [⟨0, 1, ['x']⟩]⟩, ⟨3, [], [⟨1, 2, ['y']⟩]⟩] =
      (([⟨2, [], [⟨0, 1, ['x']⟩]⟩,
         (⟨3, [], [⟨1, 2, ['y']⟩]⟩ : GroqTranscriptionResult)]).mapIdx
        fun i r => r.segments.map fun seg =>
          ({ start := jsRound (seg.start * 1000) +
                priorDurationsMs [⟨2, [], [⟨0, 1, ['x']⟩]⟩, ⟨3, [], [⟨1, 2, ['y']⟩]⟩] i
             stop := jsRound (seg.stop * 1000) +
                priorDurationsMs [⟨2, [], [⟨0, 1, ['x']⟩]⟩, ⟨3, [], [⟨1, 2, ['y']⟩]⟩] i
             text := jsTrim seg.text } : TranscriptSegment)).flatten :=
  ⟨by decide, (transcribeAudio_offsets 20971521 ⟨0, [], []⟩ _).1 (by decide)⟩

/-- `updateLiveIndex` from `src/index.ts`, over the outcome of scanning the
live directory: each subdirectory entry is `some b` when its
`broadcast.json` exists and parses to `b`, and `none` when it is missing or
corrupt (the `catch {}` path).  The parsable records are collected and
sorted by timestamp descending
(`broadcasts.sort((a, b) => b.timestamp.localeCompare(a.timestamp))`). -/
def updateLiveIndex (entries : List (Option LiveBroadcast)) : List LiveBroadcast :=
  let broadcasts := entries.filterMap id
  broadcasts.mergeSort fun a b => decide (b.timestamp ≤ a.timestamp)

/-- C9: the rebuilt manifest is exactly the parsable records (a permutation
of them) sorted by timestamp descending, and a corrupt record anywhere in
the directory scan leaves the manifest unchanged — the build never fails on
it. -/
theorem updateLiveIndex_spec (entries xs ys : List (Option LiveBroadcast)) :
    (updateLiveIndex entries).Perm (entries.filterMap id) ∧
    (updateLiveIndex entries).Pairwise (fun a b => b.timestamp ≤ a.timestamp) ∧
    updateLiveIndex (xs ++ none :: ys) = updateLiveIndex (xs ++ ys) := by
  refine ⟨List.mergeSort_perm _ _, ?_, ?_⟩
  · have hs := @List.sorted_mergeSort LiveBroadcast
      (fun a b => decide (b.timestamp ≤ a.timestamp))
      (fun a b c hab hbc => by
        simp only [decide_eq_true_eq] at *
        exact le_trans hbc hab)
      (fun a b => by
        simp only [Bool.or_eq_true, decide_eq_true_eq]
        exact le_total b.timestamp a.timestamp)
      (entries.filterMap id)
    exact hs.imp fun h => by simpa using h
  · unfold updateLiveIndex
    simp [List.filterMap_append]

/-- C4 witness: a range with no samples has ratio `0` via the theorem's
no-sample clause. -/
theorem speechRatio_bounds_isSpeech_iff_witness :
    getChunkSpeechRatio [] 0 0 = 0 :=
  (speechRatio_bounds_isSpeech_iff [] 0 0).2.2.1 (by decide)

/-- `startTime.toISOString().replace(/[:.]/g, "-")` from `mergeBroadcast`:
the character replacement step. -/
def replaceColonsDots (s : Str) : Str :=
  s.map fun c => if c = ':' || c = '.' then '-' else c

/-- `path.join(a, b)` as used by the monitor: join with a slash. -/
def pathJoin (a b : Str) : Str := a ++ '/' :: b

/-- Explicit log of the filesystem effects of one `mergeBroadcast` call:
directories created (`fs.mkdir`), files written (the merged audio and the
broadcast JSON), chunk files deleted (`fs.unlink`), and the calls to
`mergeAudioFiles` with their input list and output path. -/
structure FsEffects where
  dirsCreated : List Str
  filesWritten : List Str
  filesDeleted : List Str
  mergeAudioCalls : List (List Str × Str)
deriving DecidableEq

/-- The empty effect log. -/
def noEffects : FsEffects := ⟨[], [], [], []⟩

/-- `mergeBroadcast(chunks, liveDir)` from `src/index.ts`.  External
behaviour is passed as oracles: `iso` models `Date.toISOString` on an
epoch-ms instant and `transcribe` models `transcribeAudio` on the merged
audio file.  Returns the `LiveBroadcast` (or `null` for an empty chunk
list, before any filesystem effect) together with the effect log. -/
def mergeBroadcast (iso : Int → Str) (transcribe : Str → List TranscriptSegment)
    (chunks : List ChunkInfo) (liveDir : Str) : Option LiveBroadcast × FsEffects :=
  match chunks with
  | [] => (none, noEffects)
  | firstChunk :: _ =>
    let id := replaceColonsDots (iso firstChunk.startTime)
    let broadcastDir := pathJoin liveDir id
    let audioFile := pathJoin broadcastDir "audio.mp3".toList
    let jsonFile := pathJoin broadcastDir "broadcast.json".toList
    let chunkPaths := chunks.map (·.file)
    let totalDuration := chunks.foldl (fun sum c => sum + c.duration) 0
    let transcript := transcribe audioFile
    let title := generateTitle transcript 10
    let broadcast : LiveBroadcast :=
      { id := id
        title := title
        timestamp := iso firstChunk.startTime
        duration := totalDuration
        audioFile := "live/".toList ++ id ++ "/audio.mp3".toList
        transcript := transcript }
    (some broadcast,
      { dirsCreated := [broadcastDir]
        filesWritten := [audioFile, jsonFile]
        filesDeleted := chunkPaths
        mergeAudioCalls := [(chunkPaths, audioFile)] })

/-- The assembler state of `runService` in `src/index.ts` (`pendingChunks`,
`isProcessing`), extended with logs of the observable history: the input
chunk list of every merge performed, the broadcasts produced, and every
file deleted. -/
structure AsmState where
  pendingChunks : List ChunkInfo
  isProcessing : Bool
  merges : List (List ChunkInfo)
  broadcasts : List LiveBroadcast
  deletedFiles : List Str
deriving DecidableEq

/-- The assembler state at service start. -/
def initialAsmState : AsmState :=
  { pendingChunks := [], isProcessing := false, merges := [], broadcasts := [],
    deletedFiles := [] }

/-- `processCompletedChunk(chunkFile, startTime)` from `src/index.ts`, run
to completion with no interleaved events (the handler's awaits only matter
under concurrency, treated separately by `CStep`): classify the chunk
against the metadata buffer; a speech chunk is appended to the pending
queue; a music chunk triggers a merge of the drained pending queue when it
is non-empty and no merge is in flight, and is itself deleted. -/
def processCompletedChunk (metadataBuffer : List MetadataSample) (iso : Int → Str)
    (transcribe : Str → List TranscriptSegment) (liveDir : Str)
    (st : AsmState) (chunkFile : Str) (startTime : Int) : AsmState :=
  let endTime := startTime + CHUNK_DURATION_SECS * 1000
  let hasSpeech := chunkHasSpeech metadataBuffer startTime endTime
  if hasSpeech then
    { st with pendingChunks := st.pendingChunks ++
        [{ file := chunkFile, startTime := startTime,
           duration := CHUNK_DURATION_SECS * 1000, hasSpeech := true }] }
  else
    let st1 :=
      if 0 < st.pendingChunks.length ∧ st.isProcessing = false then
        let chunksToMerge := st.pendingChunks
        let res := mergeBroadcast iso transcribe chunksToMerge liveDir
        { pendingChunks := ([] : List ChunkInfo)
          isProcessing := false
          merges := st.merges ++ [chunksToMerge]
          broadcasts := st.broadcasts ++ res.1.toList
          deletedFiles := st.deletedFiles ++ res.2.filesDeleted }
      else st
    { st1 with deletedFiles := st1.deletedFiles ++ [chunkFile] }

/-- One tick of the periodic idle-flush interval from `src/index.ts`, run to
completion with no interleaved events: when the pending queue is non-empty,
no merge is in flight and the last pending chunk's nominal end is more than
5 minutes old, drain the queue and merge it. -/
def idleFlushTick (iso : Int → Str) (transcribe : Str → List TranscriptSegment)
    (liveDir : Str) (now : Int) (st : AsmState) : AsmState :=
  if 0 < st.pendingChunks.length ∧ st.isProcessing = false then
    match st.pendingChunks.getLast? with
    | none => st
    | some lastChunk =>
      let idleTime := now - lastChunk.startTime - CHUNK_DURATION_SECS * 1000
      if IDLE_THRESHOLD_MS < idleTime then
        let chunksToMerge := st.pendingChunks
        let res := mergeBroadcast iso transcribe chunksToMerge liveDir
        { pendingChunks := ([] : List ChunkInfo)
          isProcessing := false
          merges := st.merges ++ [chunksToMerge]
          broadcasts := st.broadcasts ++ res.1.toList
          deletedFiles := st.deletedFiles ++ res.2.filesDeleted }
      else st
  else st

/-- C10: `mergeBroadcast` on an empty chunk list returns `null` and performs
no side effects: no directory created, no file written, no chunk deleted,
no audio-merge call. -/
theorem mergeBroadcast_empty_noop (iso : Int → Str)
    (transcribe : Str → List TranscriptSegment) (liveDir : Str) :
    (mergeBroadcast iso transcribe [] liveDir).1 = none ∧
    (mergeBroadcast iso transcribe [] liveDir).2.dirsCreated = [] ∧
    (mergeBroadcast iso transcribe [] liveDir).2.filesWritten = [] ∧
    (mergeBroadcast iso transcribe [] liveDir).2.filesDeleted = [] ∧
    (mergeBroadcast iso transcribe [] liveDir).2.mergeAudioCalls = [] :=
  ⟨rfl, rfl, rfl, rfl, rfl⟩

/-- C1: from the initial assembler state, the classified chunk sequence
speech, speech, music (run with no idle flush and no merge in flight)
performs exactly one merge, whose input is the two speech chunks in arrival
order; the music chunk's file is deleted and appears in no merge's input. -/
theorem assembler_speech_speech_music
    (buf1 buf2 buf3 : List MetadataSample) (iso : Int → Str)
    (transcribe : Str → List TranscriptSegment) (liveDir : Str)
    (f1 f2 f3 : Str) (t1 t2 t3 : Int)
    (h1 : chunkHasSpeech buf1 t1 (t1 + CHUNK_DURATION_SECS * 1000) = true)
    (h2 : chunkHasSpeech buf2 t2 (t2 + CHUNK_DURATION_SECS * 1000) = true)
    (h3 : chunkHasSpeech buf3 t3 (t3 + CHUNK_DURATION_SECS * 1000) = false)
    (hf1 : f3 ≠ f1) (hf2 : f3 ≠ f2) :
    let c1 : ChunkInfo := ⟨f1, t1, CHUNK_DURATION_SECS * 1000, true⟩
    let c2 : ChunkInfo := ⟨f2, t2, CHUNK_DURATION_SECS * 1000, true⟩
    let final := processCompletedChunk buf3 iso transcribe liveDir
      (processCompletedChunk buf2 iso transcribe liveDir
        (processCompletedChunk buf1 iso transcribe liveDir initialAsmState f1 t1)
        f2 t2) f3 t3
    final.merges = [[c1, c2]] ∧
    f3 ∈ final.deletedFiles ∧
    ∀ m ∈ final.merges, f3 ∉ m.map (·.file) := by
  intro c1 c2 final
  refine ⟨?_, ?_, ?_⟩ <;>
    simp [final, c1, c2, processCompletedChunk, initialAsmState, mergeBroadcast,
      h1, h2, h3, hf1, hf2, Ne.symm hf1, Ne.symm hf2]

/-- C1 witness: concrete buffers classifying the three chunks as speech,
speech, music; the run merges exactly the two speech chunks and deletes the
music chunk's file. -/
theorem assembler_speech_speech_music_witness :
    let c1 : ChunkInfo := ⟨['a'], 0, CHUNK_DURATION_SECS * 1000, true⟩
    let c2 : ChunkInfo := ⟨['b'], 120000, CHUNK_DURATION_SECS * 1000, true⟩
    let final := processCompletedChunk [] (fun _ => []) (fun _ => []) []
      (processCompletedChunk [⟨120000, [], none, none⟩] (fun _ => []) (fun _ => []) []
        (processCompletedChunk [⟨0, [], none, none⟩] (fun _ => []) (fun _ => []) []
          initialAsmState ['a'] 0)
        ['b'] 120000) ['c'] 240000
    final.merges = [[c1, c2]] ∧
    ['c'] ∈ final.deletedFiles ∧
    ∀ m ∈ final.merges, ['c'] ∉ m.map (·.file) :=
  assembler_speech_speech_music [⟨0, [], none, none⟩] [⟨120000, [], none, none⟩] []
    (fun _ => []) (fun _ => []) [] ['a'] ['b'] ['c'] 0 120000 240000
    (by decide) (by decide) (by decide) (by decide) (by decide)

/-- C3: when the pending queue is non-empty, no merge is in flight and the
idle threshold has elapsed past the last pending chunk's nominal end, the
idle-flush tick performs exactly one merge containing all pending chunks,
and its merge log and broadcasts agree with those of a music-triggered
merge from the same state. -/
theorem idleFlush_equals_musicTrigger
    (metadataBuffer : List MetadataSample) (iso : Int → Str)
    (transcribe : Str → List TranscriptSegment) (liveDir : Str)
    (now musicTime : Int) (musicFile : Str) (st : AsmState) (lastChunk : ChunkInfo)
    (hlast : st.pendingChunks.getLast? = some lastChunk)
    (hproc : st.isProcessing = false)
    (hidle : IDLE_THRESHOLD_MS < now - lastChunk.startTime - CHUNK_DURATION_SECS * 1000)
    (hmusic : chunkHasSpeech metadataBuffer musicTime
      (musicTime + CHUNK_DURATION_SECS * 1000) = false) :
    let flushed := idleFlushTick iso transcribe liveDir now st
    let triggered := processCompletedChunk metadataBuffer iso transcribe liveDir
      st musicFile musicTime
    flushed.merges = st.merges ++ [st.pendingChunks] ∧
    flushed.merges = triggered.merges ∧
    flushed.broadcasts = triggered.broadcasts ∧
    flushed.pendingChunks = triggered.pendingChunks := by
  intro flushed triggered
  have hne : st.pendingChunks ≠ [] := by
    intro hnil
    rw [hnil] at hlast
    simp [List.getLast?] at hlast
  have hlen : 0 < st.pendingChunks.length := List.length_pos.mpr hne
  refine ⟨?_, ?_, ?_, ?_⟩ <;>
    simp [flushed, triggered, idleFlushTick, processCompletedChunk,
      hlast, hproc, hidle, hmusic, hlen]

/-- C3 witness: a single pending chunk, idle for long enough, is flushed and
yields the same merge log and broadcasts as a music-triggered merge. -/
theorem idleFlush_equals_musicTrigger_witness :
    let st : AsmState := ⟨[⟨['a'], 0, 120000, true⟩], false, [], [], []⟩
    let flushed := idleFlushTick (fun _ => []) (fun _ => []) [] 1000000 st
    let triggered := processCompletedChunk [] (fun _ => []) (fun _ => []) []
      st ['m'] 0
    flushed.merges = st.merges ++ [st.pendingChunks] ∧
    flushed.merges = triggered.merges ∧
    flushed.broadcasts = triggered.broadcasts ∧
    flushed.pendingChunks = triggered.pendingChunks :=
  idleFlush_equals_musicTrigger [] (fun _ => []) (fun _ => []) [] 1000000 0 ['m']
    ⟨[⟨['a'], 0, 120000, true⟩], false, [], [], []⟩
    ⟨['a'], 0, 120000, true⟩ (by decide) (by decide) (by decide) (by decide)

/-- The assembler state visible to interleaved event handlers in
`src/index.ts`: the pending queue, the `isProcessing` flag, and the number
of merge operations currently in flight (between the synchronous
drain-and-set-flag prefix of a trigger handler and the `isProcessing =
false` that its continuation runs after `await mergeBroadcast` /
`updateLiveIndex` complete). -/
structure ConcState where
  pendingChunks : List ChunkInfo
  isProcessing : Bool
  mergesInFlight : Nat
deriving DecidableEq

/-- One event of the assembler under cooperative scheduling.  A trigger
handler's guard check, queue drain and `isProcessing = true` assignment
contain no `await`, so they form one atomic step; everything after the
first `await` of the merge pipeline is a separate `mergeComplete` step.
Chunk arrivals and idle ticks may interleave arbitrarily with an in-flight
merge. -/
inductive CStep : ConcState → ConcState → Prop
  | speechArrive (s : ConcState) (c : ChunkInfo) :
      CStep s { s with pendingChunks := s.pendingChunks ++ [c] }
  | musicMergeStart (s : ConcState)
      (hq : 0 < s.pendingChunks.length) (hp : s.isProcessing = false) :
      CStep s { pendingChunks := [], isProcessing := true,
                mergesInFlight := s.mergesInFlight + 1 }
  | musicSkip (s : ConcState)
      (h : s.pendingChunks.length = 0 ∨ s.isProcessing = true) :
      CStep s s
  | idleMergeStart (s : ConcState) (now : Int) (lastChunk : ChunkInfo)
      (hq : s.pendingChunks.getLast? = some lastChunk)
      (hp : s.isProcessing = false)
      (hidle : IDLE_THRESHOLD_MS <
        now - lastChunk.startTime - CHUNK_DURATION_SECS * 1000) :
      CStep s { pendingChunks := [], isProcessing := true,
                mergesInFlight := s.mergesInFlight + 1 }
  | idleSkip (s : ConcState) : CStep s s
  | mergeComplete (s : ConcState) (h : 0 < s.mergesInFlight) :
      CStep s { s with isProcessing := false,
                       mergesInFlight := s.mergesInFlight - 1 }

/-- States reachable from service start (`pendingChunks = []`,
`isProcessing = false`, no merge in flight) by any interleaving of events. -/
def ConcReachable (s : ConcState) : Prop :=
  Relation.ReflTransGen CStep
    { pendingChunks := [], isProcessing := false, mergesInFlight := 0 } s

/-- C2: in every reachable assembler state, at most one merge is in flight,
and the `isProcessing` flag is set exactly while one is; since every
merge-starting step requires the flag to be clear, a second merge can never
start while one is in flight, under every ordering of trigger events. -/
theorem at_most_one_merge_in_flight (s : ConcState) (h : ConcReachable s) :
    s.mergesInFlight ≤ 1 ∧ (s.isProcessing = true ↔ s.mergesInFlight = 1) := by
  induction h with
  | refl => exact ⟨by decide, by decide⟩
  | @tail b c hreach hstep ih =>
    cases hstep with
    | speechArrive ch => exact ih
    | musicMergeStart hq hp =>
      have hle := ih.1
      have h0 : b.mergesInFlight = 0 := by
        rcases Nat.lt_or_ge b.mergesInFlight 1 with h1 | h1
        · omega
        · exact absurd (ih.2.mpr (by omega)) (by simp [hp])
      simp [h0]
    | musicSkip h => exact ih
    | idleMergeStart now lastChunk hq hp hidle =>
      have hle := ih.1
      have h0 : b.mergesInFlight = 0 := by
        rcases Nat.lt_or_ge b.mergesInFlight 1 with h1 | h1
        · omega
        · exact absurd (ih.2.mpr (by omega)) (by simp [hp])
      simp [h0]
    | idleSkip => exact ih
    | mergeComplete h =>
      have hle := ih.1
      have h1 : b.mergesInFlight = 1 := by omega
      simp [h1]

/-- C2 witness: the initial state is reachable and satisfies the invariant. -/
theorem at_most_one_merge_in_flight_witness :
    (⟨[], false, 0⟩ : ConcState).mergesInFlight ≤ 1 ∧
    ((⟨[], false, 0⟩ : ConcState).isProcessing = true ↔
      (⟨[], false, 0⟩ : ConcState).mergesInFlight = 1) :=
  at_most_one_merge_in_flight ⟨[], false, 0⟩ Relation.ReflTransGen.refl
